import Mathlib

/-!
Verification development for the godot-mcp live control protocol.

The repository has two relevant source files:
* `mcp_interaction_server.gd` — the in-game agent: a TCP server that reads
  newline-delimited JSON commands, guards reentrancy with a `_busy` flag,
  and converts Godot variants to/from JSON (`_variant_to_json`,
  `_json_to_variant`).
* `src/index.ts` — the controller: `connectToGame` (retry loop, data/close
  handlers, line framing), `sendGameCommand` (single pending-request slot
  with timeout), `disconnectFromGame`.

Numbers are modelled as rationals (GDScript floats) and integers; engine
primitives (`JSON.parse`, the per-command engine effects) are abstracted as
explicit function parameters, since they are not code of this repository.
-/

namespace GodotMcp

/-- JSON values as produced by `JSON.parse` / consumed by `JSON.stringify`.
Numbers are modelled as rationals; objects are association lists (GDScript
dictionaries have distinct keys, which theorems assume where it matters). -/
inductive GJson where
  | null : GJson
  | bool (b : Bool) : GJson
  | num (q : ℚ) : GJson
  | str (s : String) : GJson
  | arr (xs : List GJson) : GJson
  | obj (fields : List (String × GJson)) : GJson

/-- Lookup of a key in a JSON object's field list (Godot `Dictionary.get`
with the first binding winning; real dictionaries have unique keys). -/
def lookupJ : List (String × GJson) → String → Option GJson
  | [], _ => none
  | (k, v) :: rest, key => if k = key then some v else lookupJ rest key

/-- `dict.get(key, default)` on a JSON object's fields. -/
def getD (fields : List (String × GJson)) (key : String) (default : GJson) : GJson :=
  (lookupJ fields key).getD default

/-- `dict.has(key)`. -/
def hasKey (fields : List (String × GJson)) (key : String) : Bool :=
  (lookupJ fields key).isSome

/-- View a JSON value as a dictionary's fields: the typed assignment
`var d: Dictionary = v` in the source assumes `v` is a dictionary; a
non-dictionary is viewed as empty (no claim exercises the mismatch). -/
def asObj : GJson → List (String × GJson)
  | .obj fields => fields
  | _ => []

/-- GDScript `float(v)` on a JSON value.  Numbers pass through, booleans
become 0/1, null becomes 0.  (Numeric-string parsing is not modelled; every
claim only applies `float` to numeric fields.) -/
def jsonToFloat : GJson → ℚ
  | .num q => q
  | .bool b => if b then 1 else 0
  | _ => 0

/-- GDScript `int(v)`: truncation toward zero for numbers, 0/1 for booleans. -/
def jsonToInt : GJson → ℤ
  | .num q => q.num.tdiv q.den
  | .bool b => if b then 1 else 0
  | _ => 0

/-- Godot runtime values, restricted to the constructors the claims touch:
scalars, the structured geometric types handled by the codec, and
arrays/dictionaries (the generic pass-through shapes). -/
inductive GVariant where
  | null : GVariant
  | bool (b : Bool) : GVariant
  | num (q : ℚ) : GVariant
  | str (s : String) : GVariant
  | vector2 (x y : ℚ) : GVariant
  | vector2i (x y : ℤ) : GVariant
  | vector3 (x y z : ℚ) : GVariant
  | vector3i (x y z : ℤ) : GVariant
  | color (r g b a : ℚ) : GVariant
  | quaternion (x y z w : ℚ) : GVariant
  | rect2 (px py sx sy : ℚ) : GVariant
  | aabb (px py pz sx sy sz : ℚ) : GVariant
  | basis (xx xy xz yx yy yz zx zy zz : ℚ) : GVariant
  | transform2d (xx xy yx yy ox oy : ℚ) : GVariant
  | transform3d (xx xy xz yx yy yz zx zy zz ox oy oz : ℚ) : GVariant
  | arr (xs : List GVariant) : GVariant
  | dict (fields : List (String × GVariant)) : GVariant

/-- The pass-through embedding of a JSON value into the variant space
(`return value` in `_json_to_variant`): the JSON value is kept as-is. -/
def embedJson : GJson → GVariant
  | .null => .null
  | .bool b => .bool b
  | .num q => .num q
  | .str s => .str s
  | .arr xs => .arr (xs.attach.map fun x => embedJson x.1)
  | .obj fields => .dict (fields.attach.map fun kv => (kv.1.1, embedJson kv.1.2))
termination_by j => sizeOf j
decreasing_by
  · have := List.sizeOf_lt_of_mem x.2
    simp_all
    omega
  · obtain ⟨⟨k, v⟩, hm⟩ := kv
    have := List.sizeOf_lt_of_mem hm
    simp_all
    omega

/-- `_variant_to_json`: Godot variant → JSON-safe value (the encoding side
of the Value Codec, branch for branch from the source). -/
def variantToJson : GVariant → GJson
  | .null => .null
  | .bool b => .bool b
  | .num q => .num q
  | .str s => .str s
  | .vector2 x y => .obj [("x", .num x), ("y", .num y)]
  | .vector3 x y z => .obj [("x", .num x), ("y", .num y), ("z", .num z)]
  | .vector2i x y => .obj [("x", .num (x : ℚ)), ("y", .num (y : ℚ))]
  | .vector3i x y z => .obj [("x", .num (x : ℚ)), ("y", .num (y : ℚ)), ("z", .num (z : ℚ))]
  | .color r g b a => .obj [("r", .num r), ("g", .num g), ("b", .num b), ("a", .num a)]
  | .quaternion x y z w =>
      .obj [("x", .num x), ("y", .num y), ("z", .num z), ("w", .num w)]
  | .basis xx xy xz yx yy yz zx zy zz =>
      .obj [("x", .obj [("x", .num xx), ("y", .num xy), ("z", .num xz)]),
            ("y", .obj [("x", .num yx), ("y", .num yy), ("z", .num yz)]),
            ("z", .obj [("x", .num zx), ("y", .num zy), ("z", .num zz)])]
  | .transform3d xx xy xz yx yy yz zx zy zz ox oy oz =>
      .obj [("basis",
              .obj [("x", .obj [("x", .num xx), ("y", .num xy), ("z", .num xz)]),
                    ("y", .obj [("x", .num yx), ("y", .num yy), ("z", .num yz)]),
                    ("z", .obj [("x", .num zx), ("y", .num zy), ("z", .num zz)])]),
            ("origin", .obj [("x", .num ox), ("y", .num oy), ("z", .num oz)])]
  | .transform2d xx xy yx yy ox oy =>
      .obj [("x", .obj [("x", .num xx), ("y", .num xy)]),
            ("y", .obj [("x", .num yx), ("y", .num yy)]),
            ("origin", .obj [("x", .num ox), ("y", .num oy)])]
  | .rect2 px py sx sy =>
      .obj [("position", .obj [("x", .num px), ("y", .num py)]),
            ("size", .obj [("x", .num sx), ("y", .num sy)])]
  | .aabb px py pz sx sy sz =>
      .obj [("position", .obj [("x", .num px), ("y", .num py), ("z", .num pz)]),
            ("size", .obj [("x", .num sx), ("y", .num sy), ("z", .num sz)])]
  | .arr xs => .arr (xs.attach.map fun x => variantToJson x.1)
  | .dict fields => .obj (fields.attach.map fun kv => (kv.1.1, variantToJson kv.1.2))
termination_by v => sizeOf v
decreasing_by
  · have := List.sizeOf_lt_of_mem x.2
    simp_all
    omega
  · obtain ⟨⟨k, v⟩, hm⟩ := kv
    have := List.sizeOf_lt_of_mem hm
    simp_all
    omega

/-- The `"Vector2"` hint branch of `_json_to_variant`. -/
def decodeVector2 (d : List (String × GJson)) : GVariant :=
  .vector2 (jsonToFloat (getD d "x" (.num 0))) (jsonToFloat (getD d "y" (.num 0)))

/-- The `"Vector2i"` hint branch. -/
def decodeVector2i (d : List (String × GJson)) : GVariant :=
  .vector2i (jsonToInt (getD d "x" (.num 0))) (jsonToInt (getD d "y" (.num 0)))

/-- The `"Vector3"` hint branch. -/
def decodeVector3 (d : List (String × GJson)) : GVariant :=
  .vector3 (jsonToFloat (getD d "x" (.num 0))) (jsonToFloat (getD d "y" (.num 0)))
    (jsonToFloat (getD d "z" (.num 0)))

/-- The `"Vector3i"` hint branch. -/
def decodeVector3i (d : List (String × GJson)) : GVariant :=
  .vector3i (jsonToInt (getD d "x" (.num 0))) (jsonToInt (getD d "y" (.num 0)))
    (jsonToInt (getD d "z" (.num 0)))

/-- The `"Color"` hint branch: a missing `a` defaults to 1 (opaque). -/
def decodeColor (d : List (String × GJson)) : GVariant :=
  .color (jsonToFloat (getD d "r" (.num 0))) (jsonToFloat (getD d "g" (.num 0)))
    (jsonToFloat (getD d "b" (.num 0))) (jsonToFloat (getD d "a" (.num 1)))

/-- The `"Quaternion"` hint branch: a missing `w` defaults to 1. -/
def decodeQuaternion (d : List (String × GJson)) : GVariant :=
  .quaternion (jsonToFloat (getD d "x" (.num 0))) (jsonToFloat (getD d "y" (.num 0)))
    (jsonToFloat (getD d "z" (.num 0))) (jsonToFloat (getD d "w" (.num 1)))

/-- The `"Rect2"` hint branch. -/
def decodeRect2 (d : List (String × GJson)) : GVariant :=
  let pos := asObj (getD d "position" (.obj [("x", .num 0), ("y", .num 0)]))
  let sz := asObj (getD d "size" (.obj [("x", .num 0), ("y", .num 0)]))
  .rect2 (jsonToFloat (getD pos "x" (.num 0))) (jsonToFloat (getD pos "y" (.num 0)))
    (jsonToFloat (getD sz "x" (.num 0))) (jsonToFloat (getD sz "y" (.num 0)))

/-- The `"AABB"` hint branch. -/
def decodeAABB (d : List (String × GJson)) : GVariant :=
  let pos := asObj (getD d "position" (.obj [("x", .num 0), ("y", .num 0), ("z", .num 0)]))
  let sz := asObj (getD d "size" (.obj [("x", .num 0), ("y", .num 0), ("z", .num 0)]))
  .aabb (jsonToFloat (getD pos "x" (.num 0))) (jsonToFloat (getD pos "y" (.num 0)))
    (jsonToFloat (getD pos "z" (.num 0)))
    (jsonToFloat (getD sz "x" (.num 0))) (jsonToFloat (getD sz "y" (.num 0)))
    (jsonToFloat (getD sz "z" (.num 0)))

/-- The `"Basis"` hint branch. -/
def decodeBasis (d : List (String × GJson)) : GVariant :=
  let rowX := asObj (getD d "x" (.obj [("x", .num 1), ("y", .num 0), ("z", .num 0)]))
  let rowY := asObj (getD d "y" (.obj [("x", .num 0), ("y", .num 1), ("z", .num 0)]))
  let rowZ := asObj (getD d "z" (.obj [("x", .num 0), ("y", .num 0), ("z", .num 1)]))
  .basis (jsonToFloat (getD rowX "x" (.num 0))) (jsonToFloat (getD rowX "y" (.num 0)))
    (jsonToFloat (getD rowX "z" (.num 0)))
    (jsonToFloat (getD rowY "x" (.num 0))) (jsonToFloat (getD rowY "y" (.num 0)))
    (jsonToFloat (getD rowY "z" (.num 0)))
    (jsonToFloat (getD rowZ "x" (.num 0))) (jsonToFloat (getD rowZ "y" (.num 0)))
    (jsonToFloat (getD rowZ "z" (.num 0)))

/-- The `"Transform3D"` hint branch: an absent/empty `basis` falls back to
`Basis.IDENTITY`. -/
def decodeTransform3D (d : List (String × GJson)) : GVariant :=
  let basisDict := asObj (getD d "basis" (.obj []))
  let originDict := asObj (getD d "origin" (.obj [("x", .num 0), ("y", .num 0), ("z", .num 0)]))
  let b : GVariant :=
    if basisDict.length > 0 then decodeBasis basisDict else .basis 1 0 0 0 1 0 0 0 1
  match b with
  | .basis xx xy xz yx yy yz zx zy zz =>
      .transform3d xx xy xz yx yy yz zx zy zz
        (jsonToFloat (getD originDict "x" (.num 0)))
        (jsonToFloat (getD originDict "y" (.num 0)))
        (jsonToFloat (getD originDict "z" (.num 0)))
  | _ => .null

/-- The `"Transform2D"` hint branch. -/
def decodeTransform2D (d : List (String × GJson)) : GVariant :=
  let tx := asObj (getD d "x" (.obj [("x", .num 1), ("y", .num 0)]))
  let ty := asObj (getD d "y" (.obj [("x", .num 0), ("y", .num 1)]))
  let torigin := asObj (getD d "origin" (.obj [("x", .num 0), ("y", .num 0)]))
  .transform2d (jsonToFloat (getD tx "x" (.num 0))) (jsonToFloat (getD tx "y" (.num 0)))
    (jsonToFloat (getD ty "x" (.num 0))) (jsonToFloat (getD ty "y" (.num 0)))
    (jsonToFloat (getD torigin "x" (.num 0))) (jsonToFloat (getD torigin "y" (.num 0)))

/-- The structural auto-detection tail of `_json_to_variant` (reached when
the value is a dictionary and the hint matched no explicit branch), clause
for clause from the source's if-chain. -/
def autoDetect (fields : List (String × GJson)) : GVariant :=
  if hasKey fields "basis" && hasKey fields "origin" then
    decodeTransform3D fields
  else if hasKey fields "r" && hasKey fields "g" && hasKey fields "b" then
    decodeColor fields
  else if hasKey fields "x" && hasKey fields "y" && hasKey fields "z" && hasKey fields "w" then
    decodeQuaternion fields
  else if hasKey fields "position" && hasKey fields "size" then
    let posDict := asObj (getD fields "position" .null)
    let sizeDict := asObj (getD fields "size" .null)
    if hasKey posDict "z" || hasKey sizeDict "z" then decodeAABB fields
    else decodeRect2 fields
  else if hasKey fields "x" && hasKey fields "y" && hasKey fields "z" then
    decodeVector3 fields
  else if hasKey fields "x" && hasKey fields "y" && (fields.length == 2) then
    decodeVector2 fields
  else
    embedJson (.obj fields)

/-- `_json_to_variant`: JSON → Godot variant.  `null` passes through, only
dictionaries are decoded (explicit hint first, then auto-detection), every
other value is returned unchanged. -/
def jsonToVariant (value : GJson) (typeHint : String) : GVariant :=
  match value with
  | .null => .null
  | .obj fields =>
      match typeHint with
      | "Vector2" => decodeVector2 fields
      | "Vector2i" => decodeVector2i fields
      | "Vector3" => decodeVector3 fields
      | "Vector3i" => decodeVector3i fields
      | "Color" => decodeColor fields
      | "Quaternion" => decodeQuaternion fields
      | "Rect2" => decodeRect2 fields
      | "AABB" => decodeAABB fields
      | "Basis" => decodeBasis fields
      | "Transform3D" => decodeTransform3D fields
      | "Transform2D" => decodeTransform2D fields
      | _ => autoDetect fields
  | v => embedJson v

/-- The explicit type-hint string naming each supported structured type
(`none` for scalars and generic containers). -/
def structHint : GVariant → Option String
  | .vector2 _ _ => some "Vector2"
  | .vector2i _ _ => some "Vector2i"
  | .vector3 _ _ _ => some "Vector3"
  | .vector3i _ _ _ => some "Vector3i"
  | .color _ _ _ _ => some "Color"
  | .quaternion _ _ _ _ => some "Quaternion"
  | .rect2 _ _ _ _ => some "Rect2"
  | .aabb _ _ _ _ _ _ => some "AABB"
  | .basis _ _ _ _ _ _ _ _ _ => some "Basis"
  | .transform2d _ _ _ _ _ _ => some "Transform2D"
  | .transform3d _ _ _ _ _ _ _ _ _ _ _ _ => some "Transform3D"
  | _ => none

/-! ## Frame Reader

Both sides frame messages identically: append the chunk to a buffer, and
while the buffer contains a newline, cut the text before the first newline,
trim it, drop the newline, and dispatch the line if it is nonempty
(`_process` in the agent; the socket `data` handler in `connectToGame`). -/

/-- Whitespace trimmed by GDScript `strip_edges` / JS `String.trim` on the
characters that can occur in a line (the line itself contains no newline). -/
def isWS (c : Char) : Bool :=
  c = ' ' || c = '\t' || c = '\r' || c = '\n'

/-- Trim leading and trailing whitespace from a character list. -/
def trimChars (l : List Char) : List Char :=
  ((l.dropWhile isWS).reverse.dropWhile isWS).reverse

/-- Core of the frame reader: scan the buffer left to right, `cur` holding
the characters read since the last newline.  At each newline the
accumulated text is trimmed and emitted if nonempty; characters after the
last newline are returned as the retained remainder. -/
def drainAux (cur : List Char) : List Char → List (List Char) × List Char
  | [] => ([], cur)
  | c :: rest =>
      if c = '\n' then
        let line := trimChars cur
        let (ls, rem) := drainAux [] rest
        (if line = [] then ls else line :: ls, rem)
      else
        drainAux (cur ++ [c]) rest

/-- One round of the frame reader's while-loop over a buffer: the complete
(trimmed, nonempty) lines in order, and the incomplete trailing bytes. -/
def drain (buf : List Char) : List (List Char) × List Char :=
  drainAux [] buf

/-- Feeding a sequence of chunks through the frame reader starting from
buffer `st`: concatenates the lines produced per chunk, threading the
retained remainder. -/
def feedAll (st : List Char) : List (List Char) → List (List Char) × List Char
  | [] => ([], st)
  | c :: cs =>
      let (l1, st1) := drain (st ++ c)
      let (l2, st2) := feedAll st1 cs
      (l1 ++ l2, st2)

/-! ## Agent Dispatcher (`_handle_command`, `_send_response`,
`_send_response_raw` in `mcp_interaction_server.gd`)

Engine primitives are abstracted: `parse` stands for Godot's `JSON.parse`
(returning the parsed value or the parser's error message) and `runCmd` for
the engine-visible effect of a recognized handler (each `_cmd_*` function
ends every path in exactly one `_send_response`). -/

/-- Agent-side observable state: the reentrancy guard and the framed JSON
responses written to the client, oldest first. -/
structure AgentState where
  busy : Bool
  responses : List GJson

/-- `_send_response_raw`: write one framed response, leaving `_busy`
untouched (used for the busy rejection). -/
def sendResponseRaw (s : AgentState) (data : GJson) : AgentState :=
  { s with responses := s.responses ++ [data] }

/-- `_send_response`: clear `_busy`, then write the response. -/
def sendResponse (s : AgentState) (data : GJson) : AgentState :=
  sendResponseRaw { s with busy := false } data

/-- The busy rejection payload. -/
def busyError : GJson :=
  .obj [("error", .str "Server busy processing another command. Try again.")]

/-- The commands dispatched with `await` (their handlers may suspend at
frame boundaries before sending their response). -/
def asyncCommands : List String :=
  ["screenshot", "click", "key_press", "eval", "wait"]

/-- The synchronously dispatched commands. -/
def syncCommands : List String :=
  ["mouse_move", "get_ui_elements", "get_scene_tree", "get_property",
   "set_property", "call_method", "get_node_info", "instantiate_scene",
   "remove_node", "change_scene", "pause", "get_performance",
   "connect_signal", "disconnect_signal", "emit_signal", "play_animation",
   "tween_property", "get_nodes_in_group", "find_nodes_by_class",
   "reparent_node"]

/-- `var command: String = data.get("command", "")`: a present string is
taken as-is, an absent key yields `""`. -/
def getString : GJson → String
  | .str s => s
  | _ => ""

/-- How one `_handle_command` invocation ended, from the host loop's view. -/
inductive HandlerStatus where
  | rejectedBusy : HandlerStatus
  | completed : HandlerStatus
  | suspended (command : String) : HandlerStatus

/-- `_handle_command`, line for line: the busy rejection answers through
`_send_response_raw` and returns; otherwise `_busy` is set, the line is
parsed, and every error or sync path ends in `_send_response` (which clears
`_busy`), while an async handler suspends with `_busy` still held — its
eventual final `_send_response` is modelled by applying `sendResponse` to
the suspended state. -/
def handleCommand (parse : String → Except String GJson)
    (runCmd : String → GJson → GJson) (s : AgentState) (line : String) :
    AgentState × HandlerStatus :=
  if s.busy then
    (sendResponseRaw s busyError, .rejectedBusy)
  else
    let s1 := { s with busy := true }
    match parse line with
    | .error msg =>
        (sendResponse s1 (.obj [("error", .str ("Invalid JSON: " ++ msg))]), .completed)
    | .ok data =>
        match data with
        | .obj fields =>
            let command := getString (getD fields "command" (.str ""))
            let params := getD fields "params" (.obj [])
            if command ∈ asyncCommands then
              (s1, .suspended command)
            else if command ∈ syncCommands then
              (sendResponse s1 (runCmd command params), .completed)
            else
              (sendResponse s1 (.obj [("error", .str ("Unknown command: " ++ command))]),
               .completed)
        | _ => (sendResponse s1 (.obj [("error", .str "Expected JSON object")]), .completed)

/-! ## Connection Manager / Request Correlator (`src/index.ts`)

`gameConnection` holds `connected`, `socket`, `responseBuffer` and the
single `pendingResolve` slot.  The model tracks, as ghost state, which
call's resolver currently occupies the slot, which calls still have an
armed timeout timer, and the outcome each call's promise was settled with.
`JSON.parse` on a response line is again an abstract parameter. -/

/-- How a `sendGameCommand` promise was settled. `resolved` covers every
path through `pendingResolve` (a parsed response line, or the error
payloads installed by the close handler / `disconnectFromGame`);
`timedOut` is the timeout rejection; `threwNotConnected` is the
synchronous throw when not connected. -/
inductive COutcome where
  | resolved (resp : GJson) : COutcome
  | timedOut : COutcome
  | threwNotConnected : COutcome

/-- The payload the socket `close` handler resolves a pending call with. -/
def connClosedJson : GJson := .obj [("error", .str "Connection closed")]

/-- The payload `disconnectFromGame` resolves a pending call with. -/
def disconnectedJson : GJson := .obj [("error", .str "Disconnected")]

/-- Controller-side connection state.  `pending` names the call whose
wrapper resolver sits in `pendingResolve` (`none` = slot empty); `timers`
lists the calls whose timeout timer is armed (created by `setTimeout`,
neither fired nor cleared); `outcomes` logs promise settlements in order. -/
structure CtrlState where
  connected : Bool
  hasSocket : Bool
  buffer : List Char
  pending : Option Nat
  timers : List Nat
  outcomes : List (Nat × COutcome)

/-- Deliver one complete framed line, as the `data` handler's loop body
does: a line is considered only while `pendingResolve` is non-null; a line
that parses settles the pending call (the resolver's wrapper clears that
call's timer, and `pendingResolve` is nulled before resolving); a line that
fails to parse is logged and dropped, leaving the slot untouched. -/
def deliverLine (parse : List Char → Option GJson) (s : CtrlState)
    (line : List Char) : CtrlState :=
  match s.pending with
  | none => s
  | some j =>
      match parse line with
      | none => s
      | some resp =>
          { s with pending := none, timers := s.timers.erase j,
                   outcomes := s.outcomes ++ [(j, .resolved resp)] }

/-- Controller events: a `sendGameCommand` call for a fresh call id, a
socket `data` event, a call's timeout timer firing, the socket `close`
event, and an explicit `disconnectFromGame`. -/
inductive CEv where
  | send (id : Nat) : CEv
  | data (chunk : List Char) : CEv
  | timeoutFire (id : Nat) : CEv
  | close : CEv
  | disconnect : CEv
deriving DecidableEq

/-- One controller event, handler for handler from `src/index.ts`:

* `send id` — `sendGameCommand`: throws synchronously when not connected;
  otherwise arms a timeout timer for `id` and installs `id`'s resolver as
  the Pending Request (overwriting any previous one), then writes the
  framed command.
* `data chunk` — appends to `responseBuffer` and processes each complete
  line via `deliverLine`.
* `timeoutFire id` — `id`'s timer fires (possible only while armed):
  `pendingResolve` is nulled unconditionally and the call is rejected with
  a timeout error.
* `close` — the socket close handler: `connected = false`, socket dropped,
  a pending call resolved with `connClosedJson` (its wrapper clears its
  timer); the response buffer is not touched.
* `disconnect` — `disconnectFromGame`: destroys the socket, clears
  `connected` and the buffer, resolves a pending call with
  `disconnectedJson`. -/
def step (parse : List Char → Option GJson) (s : CtrlState) : CEv → CtrlState
  | .send id =>
      if s.connected && s.hasSocket then
        { s with pending := some id, timers := id :: s.timers }
      else
        { s with outcomes := s.outcomes ++ [(id, .threwNotConnected)] }
  | .data chunk =>
      (drain (s.buffer ++ chunk)).1.foldl (deliverLine parse)
        { s with buffer := (drain (s.buffer ++ chunk)).2 }
  | .timeoutFire id =>
      if id ∈ s.timers then
        { s with timers := s.timers.erase id, pending := none,
                 outcomes := s.outcomes ++ [(id, .timedOut)] }
      else
        s
  | .close =>
      match s.pending with
      | some j =>
          { s with connected := false, hasSocket := false, pending := none,
                   timers := s.timers.erase j,
                   outcomes := s.outcomes ++ [(j, .resolved connClosedJson)] }
      | none => { s with connected := false, hasSocket := false }
  | .disconnect =>
      match s.pending with
      | some j =>
          { s with connected := false, hasSocket := false, buffer := [],
                   pending := none, timers := s.timers.erase j,
                   outcomes := s.outcomes ++ [(j, .resolved disconnectedJson)] }
      | none => { s with connected := false, hasSocket := false, buffer := [] }

/-- Run a sequence of controller events. -/
def steps (parse : List Char → Option GJson) (s : CtrlState) (evs : List CEv) :
    CtrlState :=
  evs.foldl (step parse) s

/-! ## Connection routine (`connectToGame`)

The loop is driven by two environment oracles: `live k` — whether
`this.activeProcess` is still set when attempt `k` is about to start —
and `ok k` — whether TCP attempt `k` succeeds. -/

/-- The fixed initial settle delay before the first attempt (ms). -/
def initialDelayMs : Nat := 2000

/-- The fixed number of connection attempts. -/
def maxAttempts : Nat := 10

/-- The fixed delay between attempts (ms). -/
def retryDelayMs : Nat := 500

/-- How `connectToGame` ended. -/
inductive ConnectOutcome where
  | success (attempt : Nat) : ConnectOutcome
  | abortedProcessGone (attempt : Nat) : ConnectOutcome
  | exhausted : ConnectOutcome
deriving DecidableEq

/-- Result of the connection routine: the sleeps performed in order, the
number of TCP attempts actually made, the resulting `connected` flag,
whether the exhaustion diagnostic was printed, and the outcome. -/
structure ConnectResult where
  delays : List Nat
  attemptsMade : Nat
  connected : Bool
  diagnostic : Bool
  outcome : ConnectOutcome
deriving DecidableEq

/-- The `for` loop of `connectToGame`, from attempt number `attempt` with
`remaining` iterations left: abort before attempting if the process died;
return on success; otherwise sleep `retryDelayMs` and retry. -/
def connectLoop (live ok : Nat → Bool) : Nat → Nat → ConnectResult
  | _, 0 =>
      { delays := [], attemptsMade := 0, connected := false,
        diagnostic := true, outcome := .exhausted }
  | attempt, remaining + 1 =>
      if !(live attempt) then
        { delays := [], attemptsMade := 0, connected := false,
          diagnostic := false, outcome := .abortedProcessGone attempt }
      else if ok attempt then
        { delays := [], attemptsMade := 1, connected := true,
          diagnostic := false, outcome := .success attempt }
      else
        let r := connectLoop live ok (attempt + 1) remaining
        { r with delays := retryDelayMs :: r.delays,
                 attemptsMade := r.attemptsMade + 1 }

/-- `connectToGame`: initial settle delay of `initialDelayMs`, then at most
`maxAttempts` attempts.  The routine never throws: exhaustion only prints a
diagnostic and returns with `connected` still false. -/
def connectToGame (live ok : Nat → Bool) : ConnectResult :=
  let r := connectLoop live ok 1 maxAttempts
  { r with delays := initialDelayMs :: r.delays }

/-! ## Frame reader lemmas -/

theorem drainAux_append (a : List Char) : ∀ (cur b : List Char),
    drainAux cur (a ++ b) =
      ((drainAux cur a).1 ++ (drainAux (drainAux cur a).2 b).1,
       (drainAux (drainAux cur a).2 b).2) := by
  induction a with
  | nil => intro cur b; simp [drainAux]
  | cons c a ih =>
      intro cur b
      by_cases hc : c = '\n'
      · subst hc
        simp only [List.cons_append, drainAux, List.append_eq, if_pos rfl, ih]
        by_cases hl : trimChars cur = [] <;> simp [hl]
      · simpa only [List.cons_append, drainAux, List.append_eq, if_neg hc] using
          ih (cur ++ [c]) b

theorem drainAux_no_newline (l : List Char) : ∀ cur : List Char,
    '\n' ∉ l → drainAux cur l = ([], cur ++ l) := by
  induction l with
  | nil => intro cur _; simp [drainAux]
  | cons c l ih =>
      intro cur h
      have hc : c ≠ '\n' := fun hh => h (hh ▸ List.mem_cons_self c l)
      have hl : '\n' ∉ l := fun hh => h (List.mem_cons_of_mem c hh)
      simp only [drainAux, if_neg hc]
      rw [ih _ hl]
      simp

theorem drainAux_rem_no_newline (l : List Char) : ∀ cur : List Char,
    '\n' ∉ cur → '\n' ∉ (drainAux cur l).2 := by
  induction l with
  | nil => intro cur h; simpa [drainAux] using h
  | cons c l ih =>
      intro cur h
      by_cases hc : c = '\n'
      · subst hc
        simp only [drainAux, if_pos rfl]
        by_cases hl : trimChars cur = [] <;>
          simpa [hl] using ih [] (by simp)
      · simp only [drainAux, if_neg hc]
        exact ih (cur ++ [c]) (by
          intro hm
          rcases List.mem_append.mp hm with h1 | h1
          · exact h h1
          · simp at h1; exact hc h1.symm)

theorem drainAux_lines_ne_nil (l : List Char) : ∀ (cur line : List Char),
    line ∈ (drainAux cur l).1 → line ≠ [] := by
  induction l with
  | nil => intro cur line h; simp [drainAux] at h
  | cons c l ih =>
      intro cur line h
      by_cases hc : c = '\n'
      · subst hc
        simp only [drainAux, if_pos rfl] at h
        by_cases hl : trimChars cur = []
        · simp only [hl, if_pos rfl] at h
          exact ih [] line h
        · simp only [hl, if_neg hl] at h
          rcases List.mem_cons.mp h with h1 | h1
          · exact h1 ▸ hl
          · exact ih [] line h1
      · simp only [drainAux, if_neg hc] at h
        exact ih (cur ++ [c]) line h

theorem drainAux_shift (p : List Char) : ∀ (cur x : List Char),
    '\n' ∉ p → drainAux cur (p ++ x) = drainAux (cur ++ p) x := by
  induction p with
  | nil => intro cur x _; simp
  | cons c p ih =>
      intro cur x h
      have hc : c ≠ '\n' := fun hh => h (hh ▸ List.mem_cons_self c p)
      have hp : '\n' ∉ p := fun hh => h (List.mem_cons_of_mem c hh)
      simp only [List.cons_append, drainAux, List.append_eq, if_neg hc]
      rw [ih (cur ++ [c]) x hp]
      simp

theorem feedAll_flatten_aux (chunks : List (List Char)) : ∀ st : List Char,
    '\n' ∉ st → feedAll st chunks = drain (st ++ chunks.flatten) := by
  induction chunks with
  | nil =>
      intro st h
      simp only [feedAll, List.flatten_nil, List.append_nil, drain]
      rw [drainAux_no_newline st [] h]
      simp
  | cons c cs ih =>
      intro st h
      have hrem : '\n' ∉ (drain (st ++ c)).2 := drainAux_rem_no_newline _ [] (by simp)
      simp only [feedAll, List.flatten_cons]
      rw [ih _ hrem]
      have hsh := drainAux_shift ((drain (st ++ c)).2) [] cs.flatten hrem
      have happ := drainAux_append (st ++ c) [] (cs.flatten)
      simp only [drain] at hsh happ ⊢
      rw [← List.append_assoc, happ, hsh]
      simp

/-- C5. The frame reader is chunking-invariant: feeding any sequence of
chunks from an empty buffer emits exactly the lines of the concatenated
stream (same messages, same order, same retained remainder) — multiple
messages per chunk are processed in order and split messages reassembled —
and every emitted line is nonempty (empty lines are skipped, never
dispatched). -/
theorem frameReader_chunk_invariant :
    (∀ chunks : List (List Char), feedAll [] chunks = drain chunks.flatten) ∧
    (∀ buf line : List Char, line ∈ (drain buf).1 → line ≠ []) := by
  constructor
  · intro chunks
    simpa using feedAll_flatten_aux chunks [] (by simp)
  · intro buf line h
    exact drainAux_lines_ne_nil buf [] line h

/-- Witness for C5: a message split across two chunks is reassembled and
matches the unsplit processing, and the concrete emitted line is nonempty. -/
theorem frameReader_chunk_invariant_witness :
    feedAll [] ["ab".data, "c\nd".data] = drain "abc\nd".data ∧
    ("abc".data ∈ (drain "abc\nd".data).1 ∧ "abc".data ≠ []) :=
  ⟨frameReader_chunk_invariant.1 ["ab".data, "c\nd".data],
   by decide, frameReader_chunk_invariant.2 "abc\nd".data "abc".data (by decide)⟩

/-! ## Value Codec theorems -/

/-- C3. Explicit-hint round trip: decoding the codec encoding of any value
of a supported structured type with its matching hint restores the value;
and omitted fields default to identity values — a color object without `a`
decodes with alpha 1, a quaternion object without `w` decodes with w = 1. -/
theorem codec_roundtrip_with_hint :
    (∀ (v : GVariant) (h : String), structHint v = some h →
        jsonToVariant (variantToJson v) h = v) ∧
    (∀ r g b : ℚ,
        jsonToVariant (.obj [("r", .num r), ("g", .num g), ("b", .num b)]) "Color" =
          .color r g b 1) ∧
    (∀ x y z : ℚ,
        jsonToVariant (.obj [("x", .num x), ("y", .num y), ("z", .num z)]) "Quaternion" =
          .quaternion x y z 1) := by
  refine ⟨?_, ?_, ?_⟩
  · intro v h hh
    cases v <;> simp only [structHint, Option.some.injEq, reduceCtorEq] at hh <;> subst hh <;>
      simp [jsonToVariant, variantToJson, decodeVector2, decodeVector2i, decodeVector3,
        decodeVector3i, decodeColor, decodeQuaternion, decodeRect2, decodeAABB,
        decodeBasis, decodeTransform3D, decodeTransform2D, getD, lookupJ, hasKey,
        asObj, jsonToFloat, jsonToInt, Rat.num_intCast, Rat.den_intCast, Int.tdiv_one]
  · intro r g b
    simp [jsonToVariant, decodeColor, getD, lookupJ, jsonToFloat]
  · intro x y z
    simp [jsonToVariant, decodeQuaternion, getD, lookupJ, jsonToFloat]

/-- Witness for C3 at a concrete value. -/
theorem codec_roundtrip_with_hint_witness :
    structHint (.vector2i 3 (-4)) = some "Vector2i" ∧
    jsonToVariant (variantToJson (.vector2i 3 (-4))) "Vector2i" = .vector2i 3 (-4) :=
  ⟨rfl, codec_roundtrip_with_hint.1 (.vector2i 3 (-4)) "Vector2i" rfl⟩

/-! ## Auto-detection precedence (C4) -/

/-- The shape auto-detection can resolve a plain JSON object to. -/
inductive DetectKind where
  | transform3d : DetectKind
  | color : DetectKind
  | quaternion : DetectKind
  | aabb : DetectKind
  | rect2 : DetectKind
  | vector3 : DetectKind
  | vector2 : DetectKind
  | passthrough : DetectKind
deriving DecidableEq

/-- The decoder each detected shape dispatches to (each branch of the
source's auto-detect chain reduces to the corresponding hint decoder). -/
def applyKind : DetectKind → List (String × GJson) → GVariant
  | .transform3d, f => decodeTransform3D f
  | .color, f => decodeColor f
  | .quaternion, f => decodeQuaternion f
  | .aabb, f => decodeAABB f
  | .rect2, f => decodeRect2 f
  | .vector3, f => decodeVector3 f
  | .vector2, f => decodeVector2 f
  | .passthrough, f => embedJson (.obj f)

/-- Modelled from the claim's wording, independently of the source: the
documented fixed precedence — transform-shaped (`basis` and `origin`
fields) before color-shaped (`r`,`g`,`b`) before quaternion-shaped
(`x`,`y`,`z`,`w`) before rect/box-shaped (`position` and `size`, 3D iff a
`z` field is present) before 3-vector-shaped (`x`,`y`,`z`) before
2-vector-shaped (exactly the keys `x`,`y`) before pass-through. -/
def specDetect (fields : List (String × GJson)) : DetectKind :=
  if hasKey fields "basis" && hasKey fields "origin" then .transform3d
  else if hasKey fields "r" && hasKey fields "g" && hasKey fields "b" then .color
  else if hasKey fields "x" && hasKey fields "y" && hasKey fields "z" &&
          hasKey fields "w" then .quaternion
  else if hasKey fields "position" && hasKey fields "size" then
    if hasKey (asObj (getD fields "position" .null)) "z" ||
       hasKey (asObj (getD fields "size" .null)) "z" then .aabb else .rect2
  else if hasKey fields "x" && hasKey fields "y" && hasKey fields "z" then .vector3
  else if hasKey fields "x" && hasKey fields "y" &&
          (fields.map Prod.fst).all (fun k => k == "x" || k == "y") then .vector2
  else .passthrough

theorem hasKey_iff_mem (fields : List (String × GJson)) (k : String) :
    hasKey fields k = true ↔ k ∈ fields.map Prod.fst := by
  induction fields with
  | nil => simp [hasKey, lookupJ]
  | cons kv rest ih =>
      obtain ⟨k', v⟩ := kv
      by_cases h : k' = k
      · subst h
        simp [hasKey, lookupJ]
      · simp only [hasKey, lookupJ, if_neg h, List.map_cons, List.mem_cons]
        simp only [hasKey] at ih
        rw [ih]
        constructor
        · exact Or.inr
        · intro hmem
          rcases hmem with h1 | h1
          · exact absurd h1.symm h
          · exact h1

theorem vector2_cond_eq (fields : List (String × GJson))
    (hnd : (fields.map Prod.fst).Nodup) :
    (hasKey fields "x" && hasKey fields "y" && (fields.length == 2)) =
      (hasKey fields "x" && hasKey fields "y" &&
        (fields.map Prod.fst).all (fun k => k == "x" || k == "y")) := by
  by_cases hx : hasKey fields "x" = true
  · by_cases hy : hasKey fields "y" = true
    · simp only [hx, hy, Bool.true_and]
      have hx' : "x" ∈ fields.map Prod.fst := (hasKey_iff_mem _ _).mp hx
      have hy' : "y" ∈ fields.map Prod.fst := (hasKey_iff_mem _ _).mp hy
      have hlen : fields.length = (fields.map Prod.fst).length :=
        (List.length_map _ _).symm
      rw [Bool.eq_iff_iff]
      simp only [beq_iff_eq, List.all_eq_true, Bool.or_eq_true]
      constructor
      · intro h2 k hk
        obtain ⟨a, b, hab⟩ := List.length_eq_two.mp (by omega :
          (fields.map Prod.fst).length = 2)
        rw [hab] at hx' hy' hk
        simp only [List.mem_cons, List.not_mem_nil, or_false] at hx' hy' hk
        rcases hx' with rfl | rfl
        · rcases hy' with hcontra | rfl
          · exact absurd hcontra (by decide)
          · exact hk
        · rcases hy' with rfl | hcontra
          · exact hk.symm
          · exact absurd hcontra (by decide)
      · intro hall
        have hsub : fields.map Prod.fst ⊆ ["x", "y"] := by
          intro k hk
          rcases hall k hk with rfl | rfl <;> simp
        have h1 : (fields.map Prod.fst).length ≤ 2 := by
          simpa using (List.subperm_of_subset hnd hsub).length_le
        have hsub2 : ["x", "y"] ⊆ fields.map Prod.fst := by
          intro k hk
          simp only [List.mem_cons, List.not_mem_nil, or_false] at hk
          rcases hk with rfl | rfl <;> assumption
        have h2 : 2 ≤ (fields.map Prod.fst).length := by
          simpa using (List.subperm_of_subset (by decide) hsub2).length_le
        omega
    · simp [hy]
  · simp [hx]

/-- C4. Auto-detection on plain objects follows the documented fixed
precedence order: on every object with distinct keys the source's detection
chain agrees with the spec-modelled precedence (`specDetect`), deciding
transform before color before quaternion before rect/box (3D iff a `z`
field is present) before 3-vector before exactly-`x,y` 2-vector before
pass-through; in particular an object with keys `x,y,z,w` and no hint
decodes to a quaternion, not a 3-vector, and detection is a function of the
input shape (deterministic). -/
theorem autoDetect_follows_spec_precedence :
    (∀ fields : List (String × GJson), (fields.map Prod.fst).Nodup →
        autoDetect fields = applyKind (specDetect fields) fields) ∧
    (∀ x y z w : ℚ,
        jsonToVariant
            (.obj [("x", .num x), ("y", .num y), ("z", .num z), ("w", .num w)]) "" =
          .quaternion x y z w) := by
  constructor
  · intro fields hnd
    unfold autoDetect specDetect
    rw [← vector2_cond_eq fields hnd]
    simp only [apply_ite (fun k => applyKind k fields)]
    simp only [applyKind]
  · intro x y z w
    simp [jsonToVariant, autoDetect, decodeQuaternion, hasKey, getD, lookupJ, jsonToFloat]

/-- Witness for C4 at a concrete object with keys `x,y,z,w`. -/
theorem autoDetect_follows_spec_precedence_witness :
    (([("x", GJson.num 1), ("y", GJson.num 2), ("z", GJson.num 3),
       ("w", GJson.num 4)].map Prod.fst).Nodup) ∧
    autoDetect [("x", GJson.num 1), ("y", GJson.num 2), ("z", GJson.num 3),
        ("w", GJson.num 4)] =
      applyKind (specDetect [("x", GJson.num 1), ("y", GJson.num 2),
        ("z", GJson.num 3), ("w", GJson.num 4)])
        [("x", GJson.num 1), ("y", GJson.num 2), ("z", GJson.num 3),
         ("w", GJson.num 4)] :=
  ⟨by decide, autoDetect_follows_spec_precedence.1 _ (by decide)⟩

/-! ## Agent Dispatcher theorems -/

/-- C1. Busy-flag invariant: in any agent state with the busy flag set
(a handler in progress, possibly suspended), a newly arrived command is
answered immediately with the busy error through `_send_response_raw`,
which leaves the busy flag set and changes nothing else; and the
in-progress handler's eventual `_send_response` still appends its own
response and clears the flag, exactly as if no rejection had happened. -/
theorem busy_rejection_preserves_flag
    (parse : String → Except String GJson) (runCmd : String → GJson → GJson)
    (s : AgentState) (line : String) (resp : GJson) (hb : s.busy = true) :
    handleCommand parse runCmd s line =
      ({ busy := true, responses := s.responses ++ [busyError] }, .rejectedBusy) ∧
    sendResponse { busy := true, responses := s.responses ++ [busyError] } resp =
      { busy := false, responses := s.responses ++ [busyError, resp] } := by
  obtain ⟨b, rs⟩ := s
  simp only [AgentState.busy] at hb
  subst hb
  constructor
  · simp [handleCommand, sendResponseRaw]
  · simp [sendResponse, sendResponseRaw]

/-- Witness for C1: a concrete busy state rejects a concrete command and
the suspended handler still completes. -/
theorem busy_rejection_preserves_flag_witness :
    handleCommand (fun _ => .ok .null) (fun _ _ => .null)
        { busy := true, responses := [] } "cmd" =
      ({ busy := true, responses := [busyError] }, .rejectedBusy) ∧
    sendResponse { busy := true, responses := [busyError] } (.obj []) =
      { busy := false, responses := [busyError, .obj []] } := by
  have h := busy_rejection_preserves_flag (fun _ => .ok .null) (fun _ _ => .null)
    { busy := true, responses := [] } "cmd" (.obj []) rfl
  simpa using h

/-- Is the parsed JSON value a JSON object (GDScript `data is Dictionary`)? -/
def isObjJson : GJson → Bool
  | .obj _ => true
  | _ => false

/-- C8. Malformed inbound frames: when the agent is not busy, a line that
fails to parse, or parses to a non-object top-level value, is answered with
exactly one structured error response and leaves the busy flag false; the
handler is a total function of the line, so such input cannot crash the
line-processing loop. -/
theorem malformed_frame_error_response
    (parse : String → Except String GJson) (runCmd : String → GJson → GJson)
    (s : AgentState) (line : String) (hb : s.busy = false) :
    (∀ msg, parse line = .error msg →
        handleCommand parse runCmd s line =
          ({ busy := false,
             responses := s.responses ++
               [.obj [("error", .str ("Invalid JSON: " ++ msg))]] }, .completed)) ∧
    (∀ j, parse line = .ok j → isObjJson j = false →
        handleCommand parse runCmd s line =
          ({ busy := false,
             responses := s.responses ++
               [.obj [("error", .str "Expected JSON object")]] }, .completed)) := by
  obtain ⟨b, rs⟩ := s
  simp only [AgentState.busy] at hb
  subst hb
  constructor
  · intro msg hmsg
    simp [handleCommand, hmsg, sendResponse, sendResponseRaw]
  · intro j hj hobj
    cases j <;> simp_all [handleCommand, sendResponse, sendResponseRaw, isObjJson]

/-- Witness for C8: a concrete unparseable line and a concrete non-object
line each get exactly one error response without setting the busy flag. -/
theorem malformed_frame_error_response_witness :
    handleCommand (fun _ => .error "parse err") (fun _ _ => .null)
        { busy := false, responses := [] } "not json" =
      ({ busy := false,
         responses := [.obj [("error", .str ("Invalid JSON: " ++ "parse err"))]] },
       .completed) ∧
    handleCommand (fun _ => .ok (.num 3)) (fun _ _ => .null)
        { busy := false, responses := [] } "3" =
      ({ busy := false,
         responses := [.obj [("error", .str "Expected JSON object")]] }, .completed) := by
  constructor
  · have h := (malformed_frame_error_response (fun _ => .error "parse err")
      (fun _ _ => .null) { busy := false, responses := [] } "not json" rfl).1
      "parse err" rfl
    simpa using h
  · have h := (malformed_frame_error_response (fun _ => .ok (.num 3))
      (fun _ _ => .null) { busy := false, responses := [] } "3" rfl).2
      (.num 3) rfl rfl
    simpa using h

/-! ## Request Correlator / Connection Manager theorems -/

/-- The promise settlements logged for call `j`, in order. -/
def outcomesFor (j : Nat) (l : List (Nat × COutcome)) : List (Nat × COutcome) :=
  l.filter (fun p => p.1 == j)

theorem foldl_deliverLine_pres (parse : List Char → Option GJson) (j : Nat)
    (lines : List (List Char)) : ∀ s : CtrlState,
    s.pending ≠ some j → j ∉ s.timers →
      outcomesFor j (lines.foldl (deliverLine parse) s).outcomes =
          outcomesFor j s.outcomes ∧
        (lines.foldl (deliverLine parse) s).pending ≠ some j ∧
        j ∉ (lines.foldl (deliverLine parse) s).timers := by
  induction lines with
  | nil => intro s hp ht; exact ⟨rfl, hp, ht⟩
  | cons l rest ih =>
      intro s hp ht
      simp only [List.foldl_cons]
      rcases hps : s.pending with _ | k
      · have hstep : deliverLine parse s l = s := by simp [deliverLine, hps]
        rw [hstep]
        exact ih s hp ht
      · have hk : k ≠ j := fun hh => hp (hh ▸ hps)
        rcases hl : parse l with _ | resp
        · have hstep : deliverLine parse s l = s := by simp [deliverLine, hps, hl]
          rw [hstep]
          exact ih s hp ht
        · have hstep : deliverLine parse s l =
              { s with pending := none, timers := s.timers.erase k,
                       outcomes := s.outcomes ++ [(k, .resolved resp)] } := by
            simp [deliverLine, hps, hl]
          rw [hstep]
          have h3 := ih ({ s with pending := none, timers := s.timers.erase k, outcomes := s.outcomes ++ [(k, COutcome.resolved resp)] } : CtrlState) (by simp) (fun hm => ht (List.mem_of_mem_erase hm))
          refine ⟨?_, h3.2.1, h3.2.2⟩
          rw [h3.1]
          simp [outcomesFor, List.filter_append, hk]

theorem step_pres (parse : List Char → Option GJson) (j : Nat) (e : CEv)
    (s : CtrlState) (hp : s.pending ≠ some j) (ht : j ∉ s.timers)
    (hs : e ≠ .send j) :
    outcomesFor j (step parse s e).outcomes = outcomesFor j s.outcomes ∧
      (step parse s e).pending ≠ some j ∧ j ∉ (step parse s e).timers := by
  cases e with
  | send id =>
      have hid : id ≠ j := fun hh => hs (hh ▸ rfl)
      by_cases hc : s.connected && s.hasSocket
      · refine ⟨by simp [step, hc], by simp [step, hc, hid], ?_⟩
        simp only [step, hc, if_true]
        intro hm
        rcases List.mem_cons.mp hm with hh | hh
        · exact hid hh.symm
        · exact ht hh
      · exact ⟨by simp [step, hc, outcomesFor, List.filter_append, hid],
          by simp [step, hc]; exact hp, by simp [step, hc]; exact ht⟩
  | data chunk =>
      simpa [step] using
        foldl_deliverLine_pres parse j (drain (s.buffer ++ chunk)).1
          { s with buffer := (drain (s.buffer ++ chunk)).2 } hp ht
  | timeoutFire id =>
      by_cases hm : id ∈ s.timers
      · have hid : id ≠ j := fun hh => ht (hh ▸ hm)
        refine ⟨by simp [step, hm, outcomesFor, List.filter_append, hid],
          by simp [step, hm], ?_⟩
        simp only [step, hm, if_true]
        exact fun hh => ht (List.mem_of_mem_erase hh)
      · exact ⟨by simp [step, hm], by simp [step, hm]; exact hp,
          by simp [step, hm]; exact ht⟩
  | close =>
      rcases hps : s.pending with _ | k
      · exact ⟨by simp [step, hps], by simp [step, hps], by simp [step, hps]; exact ht⟩
      · have hk : k ≠ j := fun hh => hp (hh ▸ hps)
        refine ⟨by simp [step, hps, outcomesFor, List.filter_append, hk],
          by simp [step, hps], ?_⟩
        simp only [step, hps]
        exact fun hh => ht (List.mem_of_mem_erase hh)
  | disconnect =>
      rcases hps : s.pending with _ | k
      · exact ⟨by simp [step, hps], by simp [step, hps], by simp [step, hps]; exact ht⟩
      · have hk : k ≠ j := fun hh => hp (hh ▸ hps)
        refine ⟨by simp [step, hps, outcomesFor, List.filter_append, hk],
          by simp [step, hps], ?_⟩
        simp only [step, hps]
        exact fun hh => ht (List.mem_of_mem_erase hh)

theorem steps_pres (parse : List Char → Option GJson) (j : Nat)
    (evs : List CEv) : ∀ s : CtrlState,
    s.pending ≠ some j → j ∉ s.timers → CEv.send j ∉ evs →
      outcomesFor j (steps parse s evs).outcomes = outcomesFor j s.outcomes := by
  induction evs with
  | nil => intro s _ _ _; rfl
  | cons e rest ih =>
      intro s hp ht hev
      have hne : e ≠ .send j := fun hh => hev (hh ▸ List.mem_cons_self e rest)
      have hrest : CEv.send j ∉ rest := fun hh => hev (List.mem_cons_of_mem e hh)
      have h1 := step_pres parse j e s hp ht hne
      simp only [steps, List.foldl_cons]
      have h2 := ih (step parse s e) h1.2.1 h1.2.2 hrest
      simp only [steps] at h2
      rw [h2, h1.1]

/-- C6. Close with one command outstanding: the close event immediately
resolves the pending call with the connection-closed error payload and
empties the slot, and over any continuation of the run (timer events, a
second close, later sends of other calls, data arrivals) that call receives
no further settlement — it is resolved exactly once, so it neither hangs
nor settles twice. -/
theorem close_resolves_pending_exactly_once (parse : List Char → Option GJson)
    (s : CtrlState) (j : Nat) (hp : s.pending = some j) (hnd : s.timers.Nodup) :
    (step parse s .close).outcomes = s.outcomes ++ [(j, .resolved connClosedJson)] ∧
    (step parse s .close).pending = none ∧
    (∀ evs : List CEv, CEv.send j ∉ evs →
        outcomesFor j (steps parse (step parse s .close) evs).outcomes =
          outcomesFor j s.outcomes ++ [(j, .resolved connClosedJson)]) := by
  have hstep : step parse s .close =
      { s with connected := false, hasSocket := false, pending := none,
               timers := s.timers.erase j,
               outcomes := s.outcomes ++ [(j, .resolved connClosedJson)] } := by
    simp [step, hp]
  refine ⟨by rw [hstep], by rw [hstep], ?_⟩
  intro evs hev
  rw [hstep]
  have hpres := steps_pres parse j evs ({ s with connected := false, hasSocket := false, pending := none, timers := s.timers.erase j, outcomes := s.outcomes ++ [(j, COutcome.resolved connClosedJson)] } : CtrlState) (by simp) (hnd.not_mem_erase) hev
  rw [hpres]
  simp [outcomesFor, List.filter_append]

/-- Witness for C6: a concrete close with call 4 outstanding, followed by a
stale timer event and a second close, settles call 4 exactly once. -/
theorem close_resolves_pending_exactly_once_witness :
    outcomesFor 4
        (steps (fun _ => none)
          (step (fun _ => none)
            { connected := true, hasSocket := true, buffer := [],
              pending := some 4, timers := [4], outcomes := [] } .close)
          [.timeoutFire 4, .close]).outcomes =
      outcomesFor 4 [] ++ [(4, .resolved connClosedJson)] :=
  (close_resolves_pending_exactly_once (fun _ => none)
    { connected := true, hasSocket := true, buffer := [],
      pending := some 4, timers := [4], outcomes := [] } 4 rfl
    (by decide)).2.2 [.timeoutFire 4, .close] (by decide)

/-- C7 (amended). The socket close handler sets `connected` to false, drops
the socket, and notifies and clears an occupied Pending Request slot — but
it leaves the buffered partial frame exactly as it was: the response buffer
is cleared by `disconnectFromGame` and reset on the next successful
connect, not by the close handler. -/
theorem close_handler_state (parse : List Char → Option GJson) (s : CtrlState) :
    (step parse s .close).connected = false ∧
    (step parse s .close).hasSocket = false ∧
    (step parse s .close).pending = none ∧
    (step parse s .close).buffer = s.buffer ∧
    (∀ j, s.pending = some j →
        (step parse s .close).outcomes =
          s.outcomes ++ [(j, .resolved connClosedJson)]) ∧
    (s.pending = none → (step parse s .close).outcomes = s.outcomes) := by
  rcases hp : s.pending with _ | j <;>
    simp [step, hp]

/-- Witness for C7's amended statement at a concrete state with an occupied
slot and a nonempty partial frame. -/
theorem close_handler_state_witness :
    (step (fun _ => none)
        { connected := true, hasSocket := true, buffer := ['p'],
          pending := some 3, timers := [3], outcomes := [] } .close).outcomes =
      [(3, .resolved connClosedJson)] ∧
    (step (fun _ => none)
        { connected := true, hasSocket := true, buffer := ['p'],
          pending := some 3, timers := [3], outcomes := [] } .close).buffer = ['p'] :=
  ⟨(close_handler_state (fun _ => none)
      { connected := true, hasSocket := true, buffer := ['p'],
        pending := some 3, timers := [3], outcomes := [] }).2.2.2.2.1 3 rfl,
   (close_handler_state (fun _ => none)
      { connected := true, hasSocket := true, buffer := ['p'],
        pending := some 3, timers := [3], outcomes := [] }).2.2.2.1⟩

/-- Counterexample to C7 as stated: with a buffered partial frame `"p"`,
the close event leaves the response buffer nonempty — the close handler in
`connectToGame` never clears `responseBuffer`, contradicting "the buffered
partial frame (response buffer) is empty". -/
theorem close_handler_counterexample :
    (step (fun _ => none)
        { connected := true, hasSocket := true, buffer := ['p'],
          pending := none, timers := [], outcomes := [] } .close).buffer ≠ [] := by
  simp [step]

theorem foldl_deliverLine_pending_none (parse : List Char → Option GJson)
    (lines : List (List Char)) : ∀ s : CtrlState, s.pending = none →
      lines.foldl (deliverLine parse) s = s := by
  induction lines with
  | nil => intro s _; rfl
  | cons l rest ih =>
      intro s hp
      simp only [List.foldl_cons]
      have hstep : deliverLine parse s l = s := by simp [deliverLine, hp]
      rw [hstep]
      exact ih s hp

/-- C2 (amended). A per-command timeout firing rejects the caller with the
timeout outcome and clears the Pending Request slot; a response line
arriving while the slot is empty is dropped and delivered to no caller; but
because the protocol carries no correlation identifier, a late response
arriving after a subsequent command has installed a new Pending Request is
delivered to that later call. -/
theorem timeout_clears_pending_slot (parse : List Char → Option GJson)
    (s : CtrlState) :
    (∀ j, s.pending = some j → j ∈ s.timers →
        step parse s (.timeoutFire j) =
          { s with timers := s.timers.erase j, pending := none,
                   outcomes := s.outcomes ++ [(j, .timedOut)] }) ∧
    (s.pending = none → ∀ chunk,
        (step parse s (.data chunk)).outcomes = s.outcomes ∧
        (step parse s (.data chunk)).pending = none) ∧
    (∀ k chunk line resp rem, s.pending = some k →
        drain (s.buffer ++ chunk) = ([line], rem) → parse line = some resp →
        (step parse s (.data chunk)).outcomes =
          s.outcomes ++ [(k, .resolved resp)]) := by
  refine ⟨?_, ?_, ?_⟩
  · intro j hp hm
    simp [step, hm]
  · intro hp chunk
    have h := foldl_deliverLine_pending_none parse
      (drain (s.buffer ++ chunk)).1
      ({ s with buffer := (drain (s.buffer ++ chunk)).2 } : CtrlState) (by simp [hp])
    simp only [step]
    rw [h]
    exact ⟨rfl, hp⟩
  · intro k chunk line resp rem hp hdrain hparse
    simp only [step, hdrain]
    simp [deliverLine, hp, hparse]

/-- Witness for C2's amended statement: timeout of call 1 clears the slot,
and a chunk arriving with the slot empty settles nothing. -/
theorem timeout_clears_pending_slot_witness :
    step (fun _ => none)
        { connected := true, hasSocket := true, buffer := [],
          pending := some 1, timers := [1], outcomes := [] } (.timeoutFire 1) =
      { connected := true, hasSocket := true, buffer := [],
        pending := none, timers := [], outcomes := [(1, .timedOut)] } ∧
    (step (fun _ => none)
        { connected := true, hasSocket := true, buffer := [],
          pending := none, timers := [], outcomes := [(1, .timedOut)] }
        (.data "x\n".data)).outcomes = [(1, .timedOut)] := by
  constructor
  · have h := (timeout_clears_pending_slot (fun _ => none)
      { connected := true, hasSocket := true, buffer := [],
        pending := some 1, timers := [1], outcomes := [] }).1 1 rfl (by decide)
    simpa using h
  · exact ((timeout_clears_pending_slot (fun _ => none)
      { connected := true, hasSocket := true, buffer := [],
        pending := none, timers := [], outcomes := [(1, .timedOut)] }).2.1 rfl
      "x\n".data).1

/-- The single framed line of command 1's late response, as bytes on the
wire (`JSON.parse` would decode it to `lateResponseJson`). -/
def lateResponseLine : List Char := "\x7b\"error\":\"late\"\x7d".data

/-- The parsed form of `lateResponseLine`. -/
def lateResponseJson : GJson := .obj [("error", .str "late")]

/-- A concrete stand-in for `JSON.parse` on response lines: it decodes
exactly the late-response line. -/
def lateParse (l : List Char) : Option GJson :=
  if l = lateResponseLine then some lateResponseJson else none

/-- Counterexample to C2 as stated: call 1 is sent and times out (slot
cleared), call 2 is then sent (slot re-occupied), and only afterwards does
the agent's sole response to command 1 arrive — the correlator delivers it
to call 2's Pending Request, so a late response for a timed-out command IS
delivered to a caller, refuting "never delivered to any caller (in
particular not to a later call's Pending Request)". -/
theorem stale_response_misdelivered_counterexample :
    (steps lateParse
        { connected := true, hasSocket := true, buffer := [],
          pending := none, timers := [], outcomes := [] }
        [.send 1, .timeoutFire 1, .send 2, .data (lateResponseLine ++ ['\n'])]).outcomes
      = [(1, .timedOut), (2, .resolved lateResponseJson)] := rfl

theorem foldl_deliverLine_unparsed (parse : List Char → Option GJson)
    (lines : List (List Char)) : ∀ s : CtrlState,
    (∀ l ∈ lines, parse l = none) → lines.foldl (deliverLine parse) s = s := by
  induction lines with
  | nil => intro s _; rfl
  | cons l rest ih =>
      intro s h
      simp only [List.foldl_cons]
      have hstep : deliverLine parse s l = s := by
        rcases hps : s.pending with _ | k <;>
          simp [deliverLine, hps, h l (List.mem_cons_self l rest)]
      rw [hstep]
      exact ih s fun l' hl' => h l' (List.mem_cons_of_mem l hl')

theorem step_nondata_outcome_kinds (parse : List Char → Option GJson) (j : Nat)
    (e : CEv) (s : CtrlState) (hd : ∀ c, e ≠ .data c) (hs : e ≠ .send j) :
    ∀ o ∈ (step parse s e).outcomes, o ∈ s.outcomes ∨ o.1 ≠ j ∨
      o.2 = .timedOut ∨ o.2 = .resolved connClosedJson ∨
      o.2 = .resolved disconnectedJson := by
  cases e with
  | send id =>
      have hid : id ≠ j := fun hh => hs (hh ▸ rfl)
      intro o ho
      by_cases hc : s.connected && s.hasSocket
      · simp only [step, hc, if_true] at ho
        exact Or.inl ho
      · simp only [step, hc, if_false, Bool.false_eq_true, List.mem_append] at ho
        rcases ho with ho | ho
        · exact Or.inl ho
        · simp only [List.mem_cons, List.not_mem_nil, or_false] at ho
          subst ho
          exact Or.inr (Or.inl hid)
  | data chunk => exact absurd rfl (hd chunk)
  | timeoutFire id =>
      intro o ho
      by_cases hm : id ∈ s.timers
      · simp only [step, hm, if_true, List.mem_append] at ho
        rcases ho with ho | ho
        · exact Or.inl ho
        · simp only [List.mem_cons, List.not_mem_nil, or_false] at ho
          subst ho
          exact Or.inr (Or.inr (Or.inl rfl))
      · simp only [step, hm, if_false] at ho
        exact Or.inl ho
  | close =>
      intro o ho
      rcases hps : s.pending with _ | k
      · simp only [step, hps] at ho
        exact Or.inl ho
      · simp only [step, hps, List.mem_append] at ho
        rcases ho with ho | ho
        · exact Or.inl ho
        · simp only [List.mem_cons, List.not_mem_nil, or_false] at ho
          subst ho
          exact Or.inr (Or.inr (Or.inr (Or.inl rfl)))
  | disconnect =>
      intro o ho
      rcases hps : s.pending with _ | k
      · simp only [step, hps] at ho
        exact Or.inl ho
      · simp only [step, hps, List.mem_append] at ho
        rcases ho with ho | ho
        · exact Or.inl ho
        · simp only [List.mem_cons, List.not_mem_nil, or_false] at ho
          subst ho
          exact Or.inr (Or.inr (Or.inr (Or.inr rfl)))

theorem steps_nondata_outcome_kinds (parse : List Char → Option GJson) (j : Nat)
    (evs : List CEv) : ∀ s : CtrlState,
    (∀ c, CEv.data c ∉ evs) → CEv.send j ∉ evs →
    ∀ o ∈ (steps parse s evs).outcomes, o ∈ s.outcomes ∨ o.1 ≠ j ∨
      o.2 = .timedOut ∨ o.2 = .resolved connClosedJson ∨
      o.2 = .resolved disconnectedJson := by
  induction evs with
  | nil => intro s _ _ o ho; exact Or.inl ho
  | cons e rest ih =>
      intro s hd hsend o ho
      have hd1 : ∀ c, e ≠ CEv.data c := fun c hh =>
        hd c (hh ▸ List.mem_cons_self e rest)
      have hs1 : e ≠ .send j := fun hh => hsend (hh ▸ List.mem_cons_self e rest)
      have hdrest : ∀ c, CEv.data c ∉ rest := fun c hh =>
        hd c (List.mem_cons_of_mem e hh)
      have hsrest : CEv.send j ∉ rest := fun hh =>
        hsend (List.mem_cons_of_mem e hh)
      simp only [steps, List.foldl_cons] at ho
      rcases ih (step parse s e) hdrest hsrest o ho with h1 | h1
      · exact step_nondata_outcome_kinds parse j e s hd1 hs1 o h1
      · exact Or.inr h1

/-- C10. A complete line that is not parseable JSON is discarded silently:
the data event leaves the Pending Request slot occupied by the same call
and records no settlement (the line is never surfaced as a result); and
without further data arrivals the outstanding call can subsequently settle
only with the timeout rejection or a connection-closed/disconnected error
payload — never with a parsed result. -/
theorem unparseable_line_ignored (parse : List Char → Option GJson)
    (s : CtrlState) (j : Nat) (hp : s.pending = some j) :
    (∀ chunk, (∀ line ∈ (drain (s.buffer ++ chunk)).1, parse line = none) →
        (step parse s (.data chunk)).pending = some j ∧
        (step parse s (.data chunk)).outcomes = s.outcomes) ∧
    (∀ evs : List CEv, (∀ c, CEv.data c ∉ evs) → CEv.send j ∉ evs →
        ∀ o ∈ (steps parse s evs).outcomes, o ∈ s.outcomes ∨ o.1 ≠ j ∨
          o.2 = .timedOut ∨ o.2 = .resolved connClosedJson ∨
          o.2 = .resolved disconnectedJson) := by
  constructor
  · intro chunk hlines
    have h := foldl_deliverLine_unparsed parse (drain (s.buffer ++ chunk)).1
      ({ s with buffer := (drain (s.buffer ++ chunk)).2 } : CtrlState) hlines
    simp only [step]
    rw [h]
    exact ⟨hp, rfl⟩
  · exact fun evs hd hs => steps_nondata_outcome_kinds parse j evs s hd hs

/-- Witness for C10: a concrete garbage line with call 5 outstanding is
dropped without touching the slot; afterwards a timeout is the only
settlement, matching the allowed kinds. -/
theorem unparseable_line_ignored_witness :
    ((step (fun _ => none)
        { connected := true, hasSocket := true, buffer := [],
          pending := some 5, timers := [5], outcomes := [] }
        (.data "garbage\n".data)).pending = some 5 ∧
     (step (fun _ => none)
        { connected := true, hasSocket := true, buffer := [],
          pending := some 5, timers := [5], outcomes := [] }
        (.data "garbage\n".data)).outcomes = []) ∧
    ((5, COutcome.timedOut) ∈
        (steps (fun _ => none)
          { connected := true, hasSocket := true, buffer := [],
            pending := some 5, timers := [5], outcomes := [] }
          [.timeoutFire 5]).outcomes →
      (5, COutcome.timedOut) ∈ ([] : List (Nat × COutcome)) ∨
        (5, COutcome.timedOut).1 ≠ 5 ∨
        (5, COutcome.timedOut).2 = .timedOut ∨
        (5, COutcome.timedOut).2 = .resolved connClosedJson ∨
        (5, COutcome.timedOut).2 = .resolved disconnectedJson) :=
  ⟨(unparseable_line_ignored (fun _ => none)
      { connected := true, hasSocket := true, buffer := [],
        pending := some 5, timers := [5], outcomes := [] } 5 rfl).1
      "garbage\n".data (fun _ _ => rfl),
   (unparseable_line_ignored (fun _ => none)
      { connected := true, hasSocket := true, buffer := [],
        pending := some 5, timers := [5], outcomes := [] } 5 rfl).2
      [.timeoutFire 5] (fun c => by simp) (by simp) (5, COutcome.timedOut)⟩

/-! ## Connection routine theorems (C9) -/

theorem connectLoop_attemptsMade_le (live ok : Nat → Bool) :
    ∀ n a, (connectLoop live ok a n).attemptsMade ≤ n := by
  intro n
  induction n with
  | zero => intro a; simp [connectLoop]
  | succ n ih =>
      intro a
      simp only [connectLoop]
      by_cases hl : live a
      · simp only [hl, Bool.not_true, Bool.false_eq_true, if_false]
        by_cases ho : ok a
        · simp [ho]
        · simp only [ho, Bool.false_eq_true, if_false]
          have := ih (a + 1)
          omega
      · simp [hl]

theorem connectLoop_delays_retry (live ok : Nat → Bool) :
    ∀ n a d, d ∈ (connectLoop live ok a n).delays → d = retryDelayMs := by
  intro n
  induction n with
  | zero => intro a d hd; simp [connectLoop] at hd
  | succ n ih =>
      intro a d hd
      simp only [connectLoop] at hd
      by_cases hl : live a
      · simp only [hl, Bool.not_true, Bool.false_eq_true, if_false] at hd
        by_cases ho : ok a
        · simp [ho] at hd
        · simp only [ho, Bool.false_eq_true, if_false, List.mem_cons] at hd
          rcases hd with rfl | hd
          · rfl
          · exact ih (a + 1) d hd
      · simp [hl] at hd

theorem connectLoop_exhausted (live ok : Nat → Bool) :
    ∀ n a, (∀ k, a ≤ k → k < a + n → live k = true ∧ ok k = false) →
      connectLoop live ok a n =
        { delays := List.replicate n retryDelayMs, attemptsMade := n,
          connected := false, diagnostic := true, outcome := .exhausted } := by
  intro n
  induction n with
  | zero => intro a _; rfl
  | succ n ih =>
      intro a h
      have ha := h a (Nat.le_refl a) (by omega)
      simp only [connectLoop, ha.1, ha.2, Bool.not_true, Bool.false_eq_true,
        if_false]
      rw [ih (a + 1) (fun k hk1 hk2 => h k (by omega) (by omega))]
      simp [List.replicate_succ]

theorem connectLoop_abort (live ok : Nat → Bool) :
    ∀ n a k, a ≤ k → k < a + n → live k = false →
      (∀ i, a ≤ i → i < k → live i = true ∧ ok i = false) →
      connectLoop live ok a n =
        { delays := List.replicate (k - a) retryDelayMs, attemptsMade := k - a,
          connected := false, diagnostic := false,
          outcome := .abortedProcessGone k } := by
  intro n
  induction n with
  | zero => intro a k h1 h2 _ _; omega
  | succ n ih =>
      intro a k h1 h2 hk hprior
      by_cases hak : a = k
      · subst hak
        simp [connectLoop, hk]
      · have ha := hprior a (Nat.le_refl a) (by omega)
        simp only [connectLoop, ha.1, ha.2, Bool.not_true, Bool.false_eq_true,
          if_false]
        rw [ih (a + 1) k (by omega) (by omega) hk
          (fun i hi1 hi2 => hprior i (by omega) hi2)]
        have hrep : k - a = (k - (a + 1)) + 1 := by omega
        rw [hrep]
        simp [List.replicate_succ]

/-- C9. The connection routine first sleeps the fixed settle delay of
2000 ms, then makes at most 10 attempts with a fixed 500 ms delay between
them (all constants of the code, taken from no configuration input); it
aborts before attempt `k` when the target process is gone at that point,
having made exactly `k - 1` attempts; and exhausting all attempts leaves
`connected` false with only the diagnostic emitted — the routine returns
normally rather than failing hard. -/
theorem connect_routine_contract (live ok : Nat → Bool) :
    initialDelayMs = 2000 ∧ maxAttempts = 10 ∧ retryDelayMs = 500 ∧
    (connectToGame live ok).delays.head? = some initialDelayMs ∧
    (∀ d ∈ (connectToGame live ok).delays.tail, d = retryDelayMs) ∧
    (connectToGame live ok).attemptsMade ≤ maxAttempts ∧
    (∀ k, 1 ≤ k → k ≤ maxAttempts → live k = false →
        (∀ i, 1 ≤ i → i < k → live i = true ∧ ok i = false) →
        (connectToGame live ok).outcome = .abortedProcessGone k ∧
        (connectToGame live ok).attemptsMade = k - 1 ∧
        (connectToGame live ok).connected = false) ∧
    ((∀ k, 1 ≤ k → k ≤ maxAttempts → live k = true ∧ ok k = false) →
        (connectToGame live ok).connected = false ∧
        (connectToGame live ok).diagnostic = true ∧
        (connectToGame live ok).outcome = .exhausted) := by
  refine ⟨rfl, rfl, rfl, by simp [connectToGame], ?_, ?_, ?_, ?_⟩
  · intro d hd
    simp only [connectToGame] at hd
    exact connectLoop_delays_retry live ok maxAttempts 1 d hd
  · simpa [connectToGame] using connectLoop_attemptsMade_le live ok maxAttempts 1
  · intro k hk1 hk2 hkf hprior
    have h := connectLoop_abort live ok maxAttempts 1 k hk1 (by
      simp only [maxAttempts] at hk2 ⊢; omega) hkf hprior
    simp [connectToGame, h]
  · intro h
    have he := connectLoop_exhausted live ok maxAttempts 1 (fun k hk1 hk2 =>
      h k hk1 (by simp only [maxAttempts] at hk2 ⊢; omega))
    simp [connectToGame, he]

/-- Witness for C9: with the process always live and every attempt failing,
the routine exhausts its budget, stays disconnected, and only diagnoses. -/
theorem connect_routine_contract_witness :
    (connectToGame (fun _ => true) (fun _ => false)).connected = false ∧
    (connectToGame (fun _ => true) (fun _ => false)).diagnostic = true ∧
    (connectToGame (fun _ => true) (fun _ => false)).outcome = .exhausted :=
  (connect_routine_contract (fun _ => true) (fun _ => false)).2.2.2.2.2.2.2
    (fun _ _ _ => ⟨rfl, rfl⟩)

end GodotMcp
